import Mathlib

/-!
# Verification of the seeds-potential allocation pipeline

Shallow embedding of `src/core/data_processing.py` and the pipeline glue in
`src/app.py`.  Tables become Lean lists of structures; pandas/numpy float
cells become the `PyFloat` type below (not-a-number, signed infinities, and
exact rationals for the finite values — binary rounding of IEEE doubles is
not modelled, finite arithmetic is exact).  Pandas reductions that skip
not-a-number cells (`sum` with its default `skipna=True`) are modelled
explicitly.
-/

/-- Model of a pandas/numpy float cell: not-a-number, +inf, -inf, or a finite
value represented exactly as a rational. -/
inductive PyFloat : Type
  | nan : PyFloat
  | pinf : PyFloat
  | ninf : PyFloat
  | fin (q : ℚ) : PyFloat
  deriving DecidableEq, Repr

namespace PyFloat

/-- `pd.isna` / not-a-number test. -/
def isNA : PyFloat → Bool
  | .nan => true
  | _ => false

/-- Python float `<=` (any comparison with not-a-number is false). -/
def pyLe : PyFloat → PyFloat → Bool
  | .nan, _ => false
  | _, .nan => false
  | .ninf, _ => true
  | _, .pinf => true
  | .pinf, _ => false
  | _, .ninf => false
  | .fin a, .fin b => decide (a ≤ b)

/-- Python float `<` (any comparison with not-a-number is false). -/
def pyLt : PyFloat → PyFloat → Bool
  | .nan, _ => false
  | _, .nan => false
  | .pinf, _ => false
  | .ninf, .ninf => false
  | .ninf, _ => true
  | _, .pinf => true
  | _, .ninf => false
  | .fin a, .fin b => decide (a < b)

/-- numpy float addition: not-a-number propagates; inf + (-inf) is
not-a-number. -/
def pyAdd : PyFloat → PyFloat → PyFloat
  | .nan, _ => .nan
  | _, .nan => .nan
  | .pinf, .ninf => .nan
  | .ninf, .pinf => .nan
  | .pinf, _ => .pinf
  | _, .pinf => .pinf
  | .ninf, _ => .ninf
  | _, .ninf => .ninf
  | .fin a, .fin b => .fin (a + b)

/-- numpy float multiplication: not-a-number propagates; inf * 0 is
not-a-number; otherwise usual sign rules. -/
def pyMul : PyFloat → PyFloat → PyFloat
  | .nan, _ => .nan
  | _, .nan => .nan
  | .pinf, .pinf => .pinf
  | .pinf, .ninf => .ninf
  | .ninf, .pinf => .ninf
  | .ninf, .ninf => .pinf
  | .pinf, .fin b => if 0 < b then .pinf else if b < 0 then .ninf else .nan
  | .ninf, .fin b => if 0 < b then .ninf else if b < 0 then .pinf else .nan
  | .fin a, .pinf => if 0 < a then .pinf else if a < 0 then .ninf else .nan
  | .fin a, .ninf => if 0 < a then .ninf else if a < 0 then .pinf else .nan
  | .fin a, .fin b => .fin (a * b)

/-- numpy float division: not-a-number propagates; inf/inf is not-a-number;
finite/0 is a signed infinity (0/0 not-a-number); finite/inf is 0 (the sign
of zero is not modelled). -/
def pyDiv : PyFloat → PyFloat → PyFloat
  | .nan, _ => .nan
  | _, .nan => .nan
  | .pinf, .pinf => .nan
  | .pinf, .ninf => .nan
  | .ninf, .pinf => .nan
  | .ninf, .ninf => .nan
  | .pinf, .fin b => if b < 0 then .ninf else .pinf
  | .ninf, .fin b => if b < 0 then .pinf else .ninf
  | .fin _, .pinf => .fin 0
  | .fin _, .ninf => .fin 0
  | .fin a, .fin b =>
      if b = 0 then (if 0 < a then .pinf else if a < 0 then .ninf else .nan)
      else .fin (a / b)

/-- `Series.fillna(0)` on a single cell. -/
def fillna0 (v : PyFloat) : PyFloat := if v.isNA then .fin 0 else v

/-- The finite value of a cell (0 for non-finite cells); used to state sums
of columns that are known to be finite. -/
def toQ : PyFloat → ℚ
  | .fin q => q
  | _ => 0

/-- A cell holding a finite value. -/
def isFin : PyFloat → Bool
  | .fin _ => true
  | _ => false

/-- pandas `Series.sum()` with its default `skipna=True`: not-a-number cells
are skipped, remaining cells are added with float addition (the empty and
the all-not-a-number sum are 0). -/
def pandasSum (l : List PyFloat) : PyFloat :=
  (l.filter (fun v => !v.isNA)).foldl pyAdd (.fin 0)

end PyFloat

/-- Embedding of `get_weight` (src/core/data_processing.py, lines 16-35):
the piecewise-constant sowing-weight of a `Seeds/kg` value.  Each Python
`elif seeds_per_kg <= c` test is the float comparison `pyLe`, so a
not-a-number input fails every test and falls through to the final `else`
branch. -/
def get_weight (seeds_per_kg : PyFloat) : ℚ :=
  if seeds_per_kg.pyLe (.fin 0) then 0
  else if seeds_per_kg.pyLe (.fin 500) then 1/2
  else if seeds_per_kg.pyLe (.fin 2000) then 1
  else if seeds_per_kg.pyLe (.fin 5000) then 2
  else if seeds_per_kg.pyLe (.fin 10000) then 4
  else if seeds_per_kg.pyLe (.fin 20000) then 8
  else if seeds_per_kg.pyLe (.fin 80000) then 10
  else if seeds_per_kg.pyLe (.fin 200000) then 12
  else 14

/-! ## Numeric Normalizer: `clean_number` (src/core/data_processing.py, lines 3-14) -/

/-- Input cell of `clean_number`: either a missing value (detected by
`pd.isna`) or a string. -/
inductive PyObj : Type
  | na : PyObj
  | str (s : String) : PyObj
  deriving DecidableEq, Repr

/-- A raised Python exception.  `valueError s` models the built-in
`ValueError` raised by `float(s)` for an unparsable string `s` (the message
carries the string that was passed to `float`, i.e. the *normalized* text,
not the raw input). -/
inductive PyErr : Type
  | valueError (s : String) : PyErr
  deriving DecidableEq, Repr

/-- The replace chain of `clean_number`: drop U+202F (written once as an
escape and once literally in the source), drop U+00A0, turn comma into dot,
then drop ASCII spaces (in source order). -/
def normalizeNum (s : String) : String :=
  let s1 := s.toList.filter (fun c => c ≠ ' ')
  let s2 := s1.filter (fun c => c ≠ ' ')
  let s3 := s2.filter (fun c => c ≠ ' ')
  let s4 := s3.map (fun c => if c = ',' then '.' else c)
  let s5 := s4.filter (fun c => c ≠ ' ')
  String.mk s5

/-- ASCII whitespace stripped by Python's `float` before parsing. -/
def isPyWs (c : Char) : Bool :=
  c = ' ' || c = '\t' || c = '\n' || c = '\r' || c = '\x0b' || c = '\x0c'

def stripWs (l : List Char) : List Char :=
  ((l.dropWhile isPyWs).reverse.dropWhile isPyWs).reverse

def isDigitChar (c : Char) : Bool := '0' ≤ c && c ≤ '9'

def noDoubleUnderscore : List Char → Bool
  | [] => true
  | [_] => true
  | a :: b :: rest => !(a = '_' && b = '_') && noDoubleUnderscore (b :: rest)

/-- A digit group of a Python float literal: non-empty, digits with
underscores allowed strictly between digits. -/
def digitGroupOK : List Char → Bool
  | [] => false
  | l => isDigitChar (l.headD '0') && isDigitChar (l.getLastD '0') &&
         l.all (fun c => isDigitChar c || c = '_') && noDoubleUnderscore l

/-- Numeric value of the digits of a group (underscores skipped). -/
def digitsVal (l : List Char) : ℕ :=
  (l.filter isDigitChar).foldl (fun n c => 10 * n + (c.toNat - '0'.toNat)) 0

/-- Split at the first `e`/`E` (exponent marker). -/
def splitAtExp : List Char → List Char × Option (List Char)
  | [] => ([], none)
  | c :: rest =>
      if c = 'e' ∨ c = 'E' then ([], some rest)
      else
        let p := splitAtExp rest
        (c :: p.1, p.2)

/-- Split at the first `.` (decimal point). -/
def splitAtDot : List Char → List Char × Option (List Char)
  | [] => ([], none)
  | c :: rest =>
      if c = '.' then ([], some rest)
      else
        let p := splitAtDot rest
        (c :: p.1, p.2)

/-- Model of Python's built-in `float` applied to a string: strip
whitespace, optional sign, case-insensitive `inf`/`infinity`/`nan`, or a
decimal literal `[digits][.digits][(e|E)[sign]digits]` with at least one
mantissa digit.  `none` models the `ValueError` raised on anything else.
Finite results are exact rationals (IEEE rounding and overflow to infinity
of huge literals are not modelled; no claim depends on them). -/
def pyFloatOfString (s : String) : Option PyFloat :=
  let l := stripWs s.toList
  let sgnBody : ℚ × List Char :=
    match l with
    | '+' :: rest => (1, rest)
    | '-' :: rest => (-1, rest)
    | _ => (1, l)
  let sgn := sgnBody.1
  let body := sgnBody.2
  let lower := body.map Char.toLower
  if lower = "inf".toList ∨ lower = "infinity".toList then
    some (if sgn = 1 then .pinf else .ninf)
  else if lower = "nan".toList then some .nan
  else
    let me := splitAtExp body
    let ipfp := splitAtDot me.1
    let mantOK : Bool :=
      match ipfp.2 with
      | none => digitGroupOK ipfp.1
      | some fp =>
          (!ipfp.1.isEmpty || !fp.isEmpty) &&
          (ipfp.1.isEmpty || digitGroupOK ipfp.1) &&
          (fp.isEmpty || digitGroupOK fp)
    let expPair : Bool × ℤ :=
      match me.2 with
      | none => (true, 0)
      | some ('+' :: d) => (digitGroupOK d, (digitsVal d : ℤ))
      | some ('-' :: d) => (digitGroupOK d, -(digitsVal d : ℤ))
      | some d => (digitGroupOK d, (digitsVal d : ℤ))
    if mantOK && expPair.1 then
      let ipv : ℚ := digitsVal ipfp.1
      let fpv : ℚ :=
        match ipfp.2 with
        | none => 0
        | some fp => (digitsVal fp : ℚ) / (10 ^ (fp.filter isDigitChar).length)
      some (.fin (sgn * (ipv + fpv) * (10 : ℚ) ^ expPair.2))
    else none

/-- Embedding of `clean_number` (src/core/data_processing.py, lines 3-14):
missing input is returned as not-a-number; otherwise the replace chain runs
and the result is handed to `float`, whose failure is a raised
`ValueError`. -/
def clean_number : PyObj → Except PyErr PyFloat
  | .na => .ok .nan
  | .str s =>
      let t := normalizeNum s
      match pyFloatOfString t with
      | some v => .ok v
      | none => .error (.valueError t)

/-! ## Density Calculator: `load_and_compute_kg_per_ha`
(src/core/data_processing.py, lines 37-59).  CSV loading and the
`clean_number` column cleaning are the caller's concern; the table after
cleaning is the input here, one `SpeciesIn` per CSV row in file order. -/

structure SpeciesIn : Type where
  species : String
  seedsPerKg : PyFloat
  germinationRate : PyFloat
  deriving DecidableEq, Repr

structure DensityRow : Type where
  species : String
  seedsPerKg : PyFloat
  germinationRate : PyFloat
  chunkIndex : ℕ
  weight : ℚ
  sumOfWeights : ℚ
  seedsPerHa : PyFloat
  kgPerHa : PyFloat
  deriving DecidableEq, Repr

/-- Embedding of `load_and_compute_kg_per_ha`:
`chunk_index = df.index // chunk_size`; `Weight = get_weight(Seeds/kg)`
(always a finite value); `sum_of_weights` is the groupby-transform sum of
`Weight` over the rows sharing the same `chunk_index`;
`Seeds/ha = target_density / sum_of_weights * Weight / Germination Rate`;
`kg/ha = Seeds/ha / Seeds/kg` — the two quotients with float semantics. -/
def load_and_compute_kg_per_ha (rows : List SpeciesIn) (targetDensity : ℚ)
    (chunkSize : ℕ) : List DensityRow :=
  let indexed := rows.enum
  indexed.map (fun p =>
    let i := p.1
    let r := p.2
    let ci := i / chunkSize
    let w := get_weight r.seedsPerKg
    let sw := ((indexed.filter (fun q => q.1 / chunkSize = ci)).map
                (fun q => get_weight q.2.seedsPerKg)).sum
    let spha := PyFloat.pyDiv
      (PyFloat.pyMul (PyFloat.pyDiv (.fin targetDensity) (.fin sw)) (.fin w))
      r.germinationRate
    { species := r.species, seedsPerKg := r.seedsPerKg,
      germinationRate := r.germinationRate, chunkIndex := ci, weight := w,
      sumOfWeights := sw, seedsPerHa := spha,
      kgPerHa := PyFloat.pyDiv spha r.seedsPerKg })

/-! ## Stock Aggregator: `combine_suppliers`
(src/core/data_processing.py, lines 66-70). -/

structure StockRow : Type where
  specie : String
  supplyType : String
  quantity : PyFloat
  deriving DecidableEq, Repr

structure CombinedRow : Type where
  specie : String
  combinedStock : PyFloat
  deriving DecidableEq, Repr

/-- Embedding of `combine_suppliers`: filter to the chosen `Supply_Type`
values, group by `Specie`, sum `Total_MORFO_Supply_Kg` into
`Combined_Stock`.  One output row per distinct species of the filtered
table (pandas emits group keys sorted; key order is immaterial to every
claim, so first-occurrence order is used here). -/
def combine_suppliers (stocks : List StockRow) (chosen : List String) :
    List CombinedRow :=
  let filtered := stocks.filter (fun r => chosen.contains r.supplyType)
  ((filtered.map (·.specie)).dedup).map (fun s =>
    ⟨s, PyFloat.pandasSum ((filtered.filter (fun r => r.specie == s)).map
        (·.quantity))⟩)

/-! ## `merge_stock_and_kg_per_ha` (src/core/data_processing.py, lines 72-75). -/

structure MergedRow : Type where
  specie : String
  kgPerHa : PyFloat
  combinedStock : PyFloat
  deriving DecidableEq, Repr

/-- Embedding of `merge_stock_and_kg_per_ha`: left join of the density
table (its `Species` column renamed to `Specie`) with the combined-stock
table on `Specie`; a species with no stock rows keeps a single row whose
`Combined_Stock` is not-a-number.  Only the columns consumed downstream
(`Specie`, `kg/ha`, `Combined_Stock`) are carried. -/
def merge_stock_and_kg_per_ha (speciesReq : List DensityRow)
    (stock : List CombinedRow) : List MergedRow :=
  speciesReq.flatMap (fun sr =>
    let ms := stock.filter (fun c => c.specie == sr.species)
    if ms.isEmpty then [⟨sr.species, sr.kgPerHa, .nan⟩]
    else ms.map (fun c => ⟨sr.species, sr.kgPerHa, c.combinedStock⟩))

/-! ## Allocation Engine: `distribute_stock`
(src/core/data_processing.py, lines 89-149). -/

structure RegionAreaRow : Type where
  regionkey : String
  state : String
  biome : String
  specie : String
  area : PyFloat
  areaPotential : PyFloat
  deriving DecidableEq, Repr

structure DistRow : Type where
  regionkey : String
  state : String
  biome : String
  specie : String
  kgPerHa : PyFloat
  combinedStock : PyFloat
  countAppearances : ℕ
  sumArea : PyFloat
  allocatedStock : PyFloat
  possibleHa : PyFloat
  deriving DecidableEq, Repr

/-- The area column selected by `use_area_potential`. -/
def selArea (useAreaPotential : Bool) (r : RegionAreaRow) : PyFloat :=
  if useAreaPotential then r.areaPotential else r.area

/-- Step 1 of `distribute_stock`: the left join of the region×area table
with `df_merged` on `Specie` (a region row whose species has no merged row
keeps not-a-number merged columns, represented by `none`). -/
def leftJoinMerged (regionAreas : List RegionAreaRow) (merged : List MergedRow) :
    List (RegionAreaRow × Option MergedRow) :=
  regionAreas.flatMap (fun ra =>
    let ms := merged.filter (fun m => m.specie == ra.specie)
    if ms.isEmpty then [(ra, none)] else ms.map (fun m => (ra, some m)))

/-- Steps 2-5 of `distribute_stock` for one row of the joined table:
the per-species `CountAppearances`/`SumArea` statistics over the whole
joined table, the `fillna(0)` of `Combined_Stock`, the two optional
allocation transformations, and `Possible_ha_distributed`. -/
def distRowOf (joined : List (RegionAreaRow × Option MergedRow))
    (useSpeciesCount useRelativeArea useAreaPotential : Bool)
    (p : RegionAreaRow × Option MergedRow) : DistRow :=
  let ra := p.1
  let grp := joined.filter (fun q => q.1.specie == ra.specie)
  let cnt := grp.length
  let sArea := PyFloat.pandasSum (grp.map (fun q => selArea useAreaPotential q.1))
  let combined := PyFloat.fillna0
    (match p.2 with | some m => m.combinedStock | none => .nan)
  let alloc1 := if useSpeciesCount then PyFloat.pyDiv combined (.fin (cnt : ℚ))
    else combined
  let alloc2 := if useRelativeArea then
      PyFloat.pyMul alloc1 (PyFloat.pyDiv (selArea useAreaPotential ra) sArea)
    else alloc1
  let kg := match p.2 with | some m => m.kgPerHa | none => .nan
  { regionkey := ra.regionkey, state := ra.state, biome := ra.biome,
    specie := ra.specie, kgPerHa := kg, combinedStock := combined,
    countAppearances := cnt, sumArea := sArea, allocatedStock := alloc2,
    possibleHa := PyFloat.pyDiv alloc2 kg }

/-- Embedding of `distribute_stock`:
1. left join of the region×area table with `df_merged` on `Specie`;
2. per `Specie` over the joined table: `CountAppearances` = count of the
   (non-null) `STATE` column = number of rows, and `SumArea` = pandas sum of
   the selected area column, merged back onto every row of that species;
3. `Combined_Stock` is filled with 0 where missing;
4. `allocated_stock = Combined_Stock`, divided by `CountAppearances` when
   `use_species_count`, multiplied by `area / SumArea` when
   `use_relative_area`;
5. `Possible_ha_distributed = allocated_stock / kg/ha`. -/
def distribute_stock (regionAreas : List RegionAreaRow) (merged : List MergedRow)
    (useSpeciesCount useRelativeArea useAreaPotential : Bool) : List DistRow :=
  (leftJoinMerged regionAreas merged).map
    (distRowOf (leftJoinMerged regionAreas merged)
      useSpeciesCount useRelativeArea useAreaPotential)

/-! ## A total order on `PyFloat` cells, used to model pandas
`sort_values`/`min`.  It coincides with the float order on comparable
(non-nan) cells; not-a-number is placed after everything (the threshold
computation only sorts and minimizes cells that already passed the
not-a-number filter, so the placement of nan is never exercised). -/

namespace PyFloat

def sortRank : PyFloat → ℕ
  | .ninf => 0
  | .fin _ => 1
  | .pinf => 2
  | .nan => 3

instance : LE PyFloat :=
  ⟨fun a b => sortRank a < sortRank b ∨ (sortRank a = sortRank b ∧ toQ a ≤ toQ b)⟩

instance : LT PyFloat := ⟨fun a b => a ≤ b ∧ ¬b ≤ a⟩

instance decLE : DecidableRel (α := PyFloat) (· ≤ ·) := fun a b =>
  inferInstanceAs (Decidable (sortRank a < sortRank b ∨
    (sortRank a = sortRank b ∧ toQ a ≤ toQ b)))

instance decLT : DecidableRel (α := PyFloat) (· < ·) := fun a b =>
  inferInstanceAs (Decidable (_ ∧ _))

instance : LinearOrder PyFloat where
  le_refl a := Or.inr ⟨rfl, le_refl _⟩
  le_trans a b c hab hbc := by
    rcases hab with h | ⟨h₁, h₂⟩ <;> rcases hbc with h' | ⟨h₁', h₂'⟩
    · exact Or.inl (h.trans h')
    · exact Or.inl (h₁' ▸ h)
    · exact Or.inl (h₁ ▸ h')
    · exact Or.inr ⟨h₁.trans h₁', h₂.trans h₂'⟩
  le_antisymm a b hab hba := by
    rcases hab with h | ⟨h₁, h₂⟩ <;> rcases hba with h' | ⟨h₁', h₂'⟩
    · omega
    · omega
    · omega
    · have h₃ : toQ a = toQ b := le_antisymm h₂ h₂'
      cases a <;> cases b <;> simp_all [sortRank, toQ]
  le_total a b := by
    rcases Nat.lt_trichotomy (sortRank a) (sortRank b) with h | h | h
    · exact Or.inl (Or.inl h)
    · rcases le_total (toQ a) (toQ b) with h' | h'
      · exact Or.inl (Or.inr ⟨h, h'⟩)
      · exact Or.inr (Or.inr ⟨h.symm, h'⟩)
    · exact Or.inr (Or.inl h)
  lt_iff_le_not_le a b := Iff.rfl
  decidableLE := decLE

end PyFloat

/-! ## Threshold & Diversity Summarizer: `compute_threshold_factor` and
`compute_species_count` (src/core/data_processing.py, lines 151-172), and
the final merge of src/app.py (lines 125-129). -/

structure ThreshRow : Type where
  regionkey : String
  thresholdHa : PyFloat
  numSpeciesUsed : ℕ
  deriving DecidableEq, Repr

structure CountRow : Type where
  regionkey : String
  speciesCount : ℕ
  deriving DecidableEq, Repr

structure MapRow : Type where
  regionkey : String
  thresholdHa : PyFloat
  numSpeciesUsed : ℕ
  speciesCount : Option ℕ
  deriving DecidableEq, Repr

/-- The row filter of `compute_threshold_factor`: `dropna` on
`Possible_ha_distributed` followed by keeping `> 0` rows. -/
def validPos (v : PyFloat) : Bool := !v.isNA && PyFloat.pyLt (.fin 0) v

def threshValid (rows : List DistRow) : List DistRow :=
  rows.filter (fun r => validPos r.possibleHa)

/-- The `Possible_ha_distributed` values of one region of the filtered
table, sorted descending.  The code sorts the whole filtered table by
`(regionkey ascending, Possible_ha_distributed descending)` and then
groups by `regionkey`; per group that is exactly a descending sort of the
group's values. -/
def regionRanked (rows : List DistRow) (k : String) : List PyFloat :=
  List.insertionSort (fun a b => b ≤ a)
    (((threshValid rows).filter (fun r => r.regionkey == k)).map (·.possibleHa))

/-- Embedding of `compute_threshold_factor`: one output row per region of
the filtered table (pandas emits groupby keys sorted; key order is
immaterial to every claim, so first-occurrence order is used here), with
`Threshold_ha` the minimum over the top `n_species` rows of the region and
`NumSpeciesUsed` set to the constant `n_species`.  A region whose top
slice is empty (only possible with `n_species = 0`) produces no row, as a
groupby aggregation over an empty slice drops its key. -/
def compute_threshold_factor (rows : List DistRow) (nSpecies : ℕ) :
    List ThreshRow :=
  (((threshValid rows).map (·.regionkey)).dedup).filterMap (fun k =>
    match ((regionRanked rows k).take nSpecies).min? with
    | none => none
    | some m => some ⟨k, m, nSpecies⟩)

/-- Embedding of `compute_species_count`: number of distinct `Specie`
values per region of the *unfiltered* distributed table. -/
def compute_species_count (rows : List DistRow) : List CountRow :=
  ((rows.map (·.regionkey)).dedup).map (fun k =>
    ⟨k, (((rows.filter (fun r => r.regionkey == k)).map (·.specie)).dedup).length⟩)

/-- Embedding of `df_map` (src/app.py, line 128): left join of the species
count onto the threshold table on `regionkey`.  The left side is the
threshold table, so the result has exactly its rows; the right side has
unique keys, so the join is a lookup. -/
def df_map (thr : List ThreshRow) (cnt : List CountRow) : List MapRow :=
  thr.map (fun t =>
    ⟨t.regionkey, t.thresholdHa, t.numSpeciesUsed,
     (cnt.find? (fun c => c.regionkey == t.regionkey)).map (·.speciesCount)⟩)

/-- The spec's `number of positive-valid species in region`: distinct
species among the region's rows that survive the validity filter. -/
def specValidSpeciesCount (rows : List DistRow) (k : String) : ℕ :=
  ((((threshValid rows).filter (fun r => r.regionkey == k)).map (·.specie)).dedup).length

/-- Totality of the descending sort relation, for the sortedness lemma. -/
instance : IsTotal PyFloat (fun a b => b ≤ a) := ⟨fun a b => le_total b a⟩

instance : IsTrans PyFloat (fun a b => b ≤ a) := ⟨fun _ _ _ h1 h2 => le_trans h2 h1⟩

/-! # Theorems -/

example : get_weight (.fin 500) = 1/2 := by rfl
example : get_weight .nan = 14 := by rfl
example : get_weight .pinf = 14 := by rfl
example : get_weight .ninf = 0 := by rfl

example : clean_number (.str "") = .error (.valueError "") := by rfl
example : clean_number .na = .ok .nan := by rfl
example : clean_number (.str "nan") = .ok .nan := by rfl
example : clean_number (.str "abc") = .error (.valueError "abc") := by rfl

theorem PyFloat.le_def (a b : PyFloat) :
    a ≤ b ↔ PyFloat.sortRank a < PyFloat.sortRank b ∨
      (PyFloat.sortRank a = PyFloat.sortRank b ∧ PyFloat.toQ a ≤ PyFloat.toQ b) :=
  Iff.rfl

/-- On comparable (non-nan) cells the sort order is the float order. -/
theorem PyFloat.le_iff_pyLe (a b : PyFloat) (ha : a.isNA = false)
    (hb : b.isNA = false) : a ≤ b ↔ a.pyLe b = true := by
  cases a <;> cases b <;>
    simp_all [PyFloat.isNA, PyFloat.pyLe, PyFloat.le_def, PyFloat.sortRank,
      PyFloat.toQ] <;> omega

/-! ## Helper lemmas about `get_weight` -/

theorem get_weight_nonneg (x : PyFloat) : 0 ≤ get_weight x := by
  unfold get_weight; split_ifs <;> norm_num

theorem get_weight_le_fourteen (x : PyFloat) : get_weight x ≤ 14 := by
  unfold get_weight; split_ifs <;> norm_num

set_option maxHeartbeats 1000000 in
theorem get_weight_mono_fin (a b : ℚ) (hab : a ≤ b) :
    get_weight (.fin a) ≤ get_weight (.fin b) := by
  simp only [get_weight, PyFloat.pyLe, decide_eq_true_eq]
  split_ifs <;> linarith

/-- C6: the seeding-weight function is monotonically non-decreasing in
`seeds_per_kg` over all numerically comparable float inputs (any pair
related by the float `<=`), and piecewise-constant with each boundary value
taking the lower bucket's label: `weight(0)=0`, `weight(500)=0.5`,
`weight(501)=1`, `weight(200001)=14`, and the remaining upper bounds
`2000, 5000, 10000, 20000, 80000, 200000` map to
`1, 2, 4, 8, 10, 12` respectively. -/
theorem C6_get_weight_monotone (a b : PyFloat) (h : a.pyLe b = true) :
    get_weight a ≤ get_weight b ∧
    get_weight (.fin 0) = 0 ∧ get_weight (.fin 500) = 1/2 ∧
    get_weight (.fin 501) = 1 ∧ get_weight (.fin 200001) = 14 ∧
    get_weight (.fin 2000) = 1 ∧ get_weight (.fin 5000) = 2 ∧
    get_weight (.fin 10000) = 4 ∧ get_weight (.fin 20000) = 8 ∧
    get_weight (.fin 80000) = 10 ∧ get_weight (.fin 200000) = 12 := by
  refine ⟨?_, by rfl, by rfl, by rfl, by rfl, by rfl, by rfl, by rfl, by rfl,
    by rfl, by rfl⟩
  cases a <;> cases b <;> simp_all [PyFloat.pyLe] <;>
    first
      | exact le_refl _
      | exact get_weight_nonneg _
      | exact get_weight_le_fourteen _
      | exact get_weight_mono_fin _ _ (by assumption)

/-- Witness for C6 at the concrete comparable pair (300, 501). -/
theorem C6_witness :
    PyFloat.pyLe (.fin 300) (.fin 501) = true ∧
    get_weight (.fin 300) ≤ get_weight (.fin 501) :=
  ⟨by rfl, (C6_get_weight_monotone (.fin 300) (.fin 501) (by rfl)).1⟩

/-- C10: `get_weight` is total on every float cell (it is a Lean function on
all of `PyFloat`, including not-a-number and the infinities), its value
always lies in the nine constants, each of the nine constants is attained,
and a not-a-number input yields 14, the maximal weight. -/
theorem C10_get_weight_range (x : PyFloat) :
    (get_weight x = 0 ∨ get_weight x = 1/2 ∨ get_weight x = 1 ∨
     get_weight x = 2 ∨ get_weight x = 4 ∨ get_weight x = 8 ∨
     get_weight x = 10 ∨ get_weight x = 12 ∨ get_weight x = 14) ∧
    get_weight .nan = 14 ∧
    (∃ y, get_weight y = 0) ∧ (∃ y, get_weight y = 1/2) ∧
    (∃ y, get_weight y = 1) ∧ (∃ y, get_weight y = 2) ∧
    (∃ y, get_weight y = 4) ∧ (∃ y, get_weight y = 8) ∧
    (∃ y, get_weight y = 10) ∧ (∃ y, get_weight y = 12) ∧
    (∃ y, get_weight y = 14) := by
  refine ⟨?_, by rfl, ⟨.fin 0, by rfl⟩, ⟨.fin 500, by rfl⟩, ⟨.fin 2000, by rfl⟩,
    ⟨.fin 5000, by rfl⟩, ⟨.fin 10000, by rfl⟩, ⟨.fin 20000, by rfl⟩,
    ⟨.fin 80000, by rfl⟩, ⟨.fin 200000, by rfl⟩, ⟨.nan, by rfl⟩⟩
  unfold get_weight
  split_ifs <;> norm_num

/-- C9 counterexample: the empty string is empty input, yet `clean_number`
raises a `ValueError` instead of returning not-a-number (`pd.isna('')` is
false, and Python's `float('')` raises). -/
theorem C9_counterexample :
    clean_number (.str "") = .error (.valueError "") ∧
    clean_number (.str "") ≠ .ok .nan :=
  ⟨rfl, fun h => Except.noConfusion h⟩

/-- C9 amended: missing (NA) input produces not-a-number without raising;
empty or otherwise unparsable text raises a `ValueError` carrying the
normalized offending text (there is no `ParseError` class and no source
column in the error). -/
theorem C9_amended (s : String)
    (h : pyFloatOfString (normalizeNum s) = none) :
    clean_number (.str s) = .error (.valueError (normalizeNum s)) ∧
    clean_number .na = .ok .nan := by
  refine ⟨?_, rfl⟩
  simp [clean_number, h]

/-- Witness for C9 at the concrete malformed input `"abc"`. -/
theorem C9_witness :
    pyFloatOfString (normalizeNum "abc") = none ∧
    (clean_number (.str "abc") = .error (.valueError (normalizeNum "abc")) ∧
     clean_number .na = .ok .nan) :=
  ⟨by rfl, C9_amended "abc" (by rfl)⟩

/-- C5: every density-table row's `chunk_index` is its position divided by
`chunk_size`, and its `sum_of_weights` is the sum of `Weight` over exactly
the table rows sharing that `chunk_index` (all rows of a chunk share the
identical denominator).  `0 < chunk_size` scopes the claim to inputs where
the Python division is defined. -/
theorem C5_chunk_invariant (rows : List SpeciesIn) (targetDensity : ℚ)
    (chunkSize : ℕ) (hcs : 0 < chunkSize) (i : ℕ) (r : DensityRow)
    (hr : (load_and_compute_kg_per_ha rows targetDensity chunkSize)[i]? = some r) :
    r.chunkIndex = i / chunkSize ∧
    r.sumOfWeights =
      (((load_and_compute_kg_per_ha rows targetDensity chunkSize).filter
          (fun s => s.chunkIndex == r.chunkIndex)).map (·.weight)).sum := by
  simp only [load_and_compute_kg_per_ha] at hr ⊢
  rw [List.getElem?_map, List.getElem?_enum] at hr
  cases ha : rows[i]? with
  | none => rw [ha] at hr; simp at hr
  | some a =>
    rw [ha] at hr
    simp only [Option.map_some'] at hr
    injection hr with hr
    subst hr
    refine ⟨rfl, ?_⟩
    rw [List.filter_map, List.map_map]
    rw [List.filter_congr (q := fun p => decide (p.1 / chunkSize = i / chunkSize)) ?_]
    · rfl
    · intro p _
      by_cases hq : p.1 / chunkSize = i / chunkSize <;> simp [hq]

theorem C5_witness :
    0 < 2 ∧
    ((⟨"C", .fin 600, .fin 80, 1, 1, 1, .fin 1, .fin (1/600)⟩ : DensityRow).chunkIndex = 2 / 2 ∧
     (⟨"C", .fin 600, .fin 80, 1, 1, 1, .fin 1, .fin (1/600)⟩ : DensityRow).sumOfWeights =
       (((load_and_compute_kg_per_ha
             [⟨"A", .fin 1000, .fin 100⟩, ⟨"B", .fin 100, .fin 50⟩, ⟨"C", .fin 600, .fin 80⟩] 80 2).filter
           (fun s => s.chunkIndex == (⟨"C", .fin 600, .fin 80, 1, 1, 1, .fin 1, .fin (1/600)⟩ : DensityRow).chunkIndex)).map
         (fun s => s.weight)).sum) :=
  ⟨by norm_num,
   C5_chunk_invariant
     [⟨"A", .fin 1000, .fin 100⟩, ⟨"B", .fin 100, .fin 50⟩, ⟨"C", .fin 600, .fin 80⟩] 80 2
     (by norm_num) 2 ⟨"C", .fin 600, .fin 80, 1, 1, 1, .fin 1, .fin (1/600)⟩
     (by norm_num [load_and_compute_kg_per_ha, get_weight, PyFloat.pyLe, PyFloat.pyDiv,
                   PyFloat.pyMul, List.filter, List.enum, List.enumFrom])⟩

/-! ## Sum helpers -/

theorem foldl_pyAdd_fin (l : List PyFloat) (h : ∀ v ∈ l, v.isFin = true) (q : ℚ) :
    l.foldl PyFloat.pyAdd (.fin q) = .fin (q + (l.map PyFloat.toQ).sum) := by
  induction l generalizing q with
  | nil => simp
  | cons x xs ih =>
      obtain ⟨a, rfl⟩ : ∃ a, x = .fin a := by
        cases x <;> simp_all [PyFloat.isFin]
      have hxs : ∀ v ∈ xs, v.isFin = true := fun v hv => h v (List.mem_cons_of_mem _ hv)
      simp [PyFloat.pyAdd, ih hxs, PyFloat.toQ, add_assoc]

theorem pandasSum_fin (l : List PyFloat) (h : ∀ v ∈ l, v.isFin = true) :
    PyFloat.pandasSum l = .fin ((l.map PyFloat.toQ).sum) := by
  have hfil : l.filter (fun v => !v.isNA) = l := by
    apply List.filter_eq_self.mpr
    intro v hv
    have := h v hv
    cases v <;> simp_all [PyFloat.isFin, PyFloat.isNA]
  rw [PyFloat.pandasSum, hfil, foldl_pyAdd_fin l h, zero_add]

theorem sum_map_add_q {α : Type} (l : List α) (f g : α → ℚ) :
    (l.map (fun x => f x + g x)).sum = (l.map f).sum + (l.map g).sum := by
  induction l with
  | nil => simp
  | cons x xs ih => simp [ih]; ring

theorem sum_map_ite_eq {β : Type} [DecidableEq β] (ks : List β) (b : β) (v : ℚ)
    (hnd : ks.Nodup) (hb : b ∈ ks) :
    (ks.map (fun k => if b = k then v else 0)).sum = v := by
  induction ks with
  | nil => cases hb
  | cons k ks ih =>
      rcases List.mem_cons.mp hb with h | h
      · subst h
        have : ∀ k' ∈ ks, (if b = k' then v else 0) = 0 := by
          intro k' hk'
          have : b ≠ k' := fun he => (List.nodup_cons.mp hnd).1 (he ▸ hk')
          simp [this]
        simp [List.map_congr_left this]
      · have hnb : b ≠ k := fun he => (List.nodup_cons.mp hnd).1 (he ▸ h)
        simp [hnb, ih (List.nodup_cons.mp hnd).2 h]

theorem sum_fiberwise_q {α β : Type} [DecidableEq β] (l : List α)
    (key : α → β) (val : α → ℚ) (ks : List β) (hnd : ks.Nodup)
    (hmem : ∀ x ∈ l, key x ∈ ks) :
    (ks.map (fun k => ((l.filter (fun x => key x == k)).map val).sum)).sum
      = (l.map val).sum := by
  induction l with
  | nil => simp
  | cons x xs ih =>
      have hx : key x ∈ ks := hmem x (List.mem_cons_self x xs)
      have hxs : ∀ y ∈ xs, key y ∈ ks := fun y hy => hmem y (List.mem_cons_of_mem _ hy)
      have hsplit : ∀ k : β,
          ((((x :: xs).filter (fun y => key y == k)).map val).sum)
            = (if key x = k then val x else 0)
              + ((xs.filter (fun y => key y == k)).map val).sum := by
        intro k
        by_cases hk : key x = k <;> simp [List.filter_cons, hk]
      rw [List.map_congr_left (fun k _ => hsplit k), sum_map_add_q,
          sum_map_ite_eq ks (key x) (val x) hnd hx, ih hxs]
      simp

/-- C8: for every stock table and chosen supply-type subset whose selected
rows all carry finite quantities, the sum of `Combined_Stock` over the
aggregated species equals the sum of `Total_MORFO_Supply_Kg` over exactly
the rows whose `Supply_Type` was chosen. -/
theorem C8_stock_conservation (stocks : List StockRow) (chosen : List String)
    (h : ∀ r ∈ stocks, chosen.contains r.supplyType → r.quantity.isFin = true) :
    PyFloat.pandasSum ((combine_suppliers stocks chosen).map (·.combinedStock)) =
      .fin (((stocks.filter (fun r => chosen.contains r.supplyType)).map
              (fun r => r.quantity.toQ)).sum) := by
  have hfin : ∀ r ∈ stocks.filter (fun r => chosen.contains r.supplyType),
      r.quantity.isFin = true := by
    intro r hr
    rw [List.mem_filter] at hr
    exact h r hr.1 hr.2
  have hout : (combine_suppliers stocks chosen).map (·.combinedStock)
      = (((stocks.filter (fun r => chosen.contains r.supplyType)).map (·.specie)).dedup).map
          (fun s => PyFloat.pandasSum
            (((stocks.filter (fun r => chosen.contains r.supplyType)).filter
                (fun r => r.specie == s)).map (·.quantity))) := by
    simp [combine_suppliers, List.map_map]
  rw [hout]
  have hgrp : ∀ s ∈ ((stocks.filter (fun r => chosen.contains r.supplyType)).map (·.specie)).dedup,
      PyFloat.pandasSum
        (((stocks.filter (fun r => chosen.contains r.supplyType)).filter
            (fun r => r.specie == s)).map (·.quantity))
      = .fin ((((stocks.filter (fun r => chosen.contains r.supplyType)).filter
            (fun r => r.specie == s)).map (fun r => r.quantity.toQ)).sum) := by
    intro s _
    rw [pandasSum_fin]
    · rw [List.map_map]; rfl
    · intro v hv
      rw [List.mem_map] at hv
      obtain ⟨r, hr, rfl⟩ := hv
      exact hfin r (List.mem_of_mem_filter hr)
  rw [List.map_congr_left hgrp, pandasSum_fin]
  · rw [List.map_map]
    have : (PyFloat.toQ ∘ fun s =>
        (PyFloat.fin ((((stocks.filter (fun r => chosen.contains r.supplyType)).filter
            (fun r => r.specie == s)).map (fun r => r.quantity.toQ)).sum)))
      = fun s => (((stocks.filter (fun r => chosen.contains r.supplyType)).filter
            (fun r => r.specie == s)).map (fun r => r.quantity.toQ)).sum := rfl
    rw [this]
    exact congrArg PyFloat.fin
      (sum_fiberwise_q (stocks.filter (fun r => chosen.contains r.supplyType))
      (fun r : StockRow => r.specie) (fun r : StockRow => r.quantity.toQ) _
      (List.nodup_dedup _)
      (fun x hx => List.mem_dedup.mpr (List.mem_map_of_mem (fun r : StockRow => r.specie) hx)))
  · intro v hv
    rw [List.mem_map] at hv
    obtain ⟨s, hs, rfl⟩ := hv
    rfl

/-! ## Join lemmas for the Allocation Engine -/

theorem leftJoin_filter_S (regionAreas : List RegionAreaRow)
    (merged : List MergedRow) (S : String) (m : MergedRow)
    (hm : merged.filter (fun mm => mm.specie == S) = [m]) :
    (leftJoinMerged regionAreas merged).filter (fun q => q.1.specie == S)
      = (regionAreas.filter (fun x => x.specie == S)).map (fun x => (x, some m)) := by
  induction regionAreas with
  | nil => rfl
  | cons x xs ih =>
      rw [leftJoinMerged, List.flatMap_cons, List.filter_append]
      rw [leftJoinMerged] at ih
      rw [ih, List.filter_cons]
      by_cases hx : x.specie = S
      · have hms : merged.filter (fun mm => mm.specie == x.specie) = [m] := by
          rw [show (fun mm : MergedRow => mm.specie == x.specie)
                = (fun mm : MergedRow => mm.specie == S) by rw [hx]]
          exact hm
        rw [hms]
        simp [hx]
      · have hnil : ∀ q ∈ (let ms := merged.filter (fun mm => mm.specie == x.specie)
            if ms.isEmpty then [(x, (none : Option MergedRow))]
            else ms.map (fun m => (x, some m))), (q.1.specie == S) = false := by
          intro q hq
          simp only at hq
          split at hq
          · simp at hq
            subst hq
            exact beq_eq_false_iff_ne.mpr hx
          · rw [List.mem_map] at hq
            obtain ⟨mm, _, rfl⟩ := hq
            exact beq_eq_false_iff_ne.mpr hx
        rw [List.filter_eq_nil.mpr (fun a ha => by rw [hnil a ha]; exact Bool.false_ne_true)]
        simp [beq_eq_false_iff_ne.mpr hx]

theorem distribute_filter_S (regionAreas : List RegionAreaRow)
    (merged : List MergedRow) (sc rel uap : Bool) (S : String) (m : MergedRow)
    (hm : merged.filter (fun mm => mm.specie == S) = [m]) :
    (distribute_stock regionAreas merged sc rel uap).filter (fun r => r.specie == S)
      = (regionAreas.filter (fun x => x.specie == S)).map
          (fun x => distRowOf (leftJoinMerged regionAreas merged) sc rel uap (x, some m)) := by
  rw [distribute_stock, List.filter_map]
  have hcomp : ((fun r : DistRow => r.specie == S)
        ∘ distRowOf (leftJoinMerged regionAreas merged) sc rel uap)
      = fun q => q.1.specie == S := rfl
  rw [hcomp, leftJoin_filter_S _ _ _ _ hm, List.map_map]
  rfl

theorem distRowOf_S_fields (regionAreas : List RegionAreaRow)
    (merged : List MergedRow) (sc rel uap : Bool) (S : String) (m : MergedRow)
    (x : RegionAreaRow) (hm : merged.filter (fun mm => mm.specie == S) = [m])
    (hx : x.specie = S) :
    (distRowOf (leftJoinMerged regionAreas merged) sc rel uap (x, some m)).countAppearances
        = (regionAreas.filter (fun y => y.specie == S)).length ∧
    (distRowOf (leftJoinMerged regionAreas merged) sc rel uap (x, some m)).sumArea
        = PyFloat.pandasSum ((regionAreas.filter (fun y => y.specie == S)).map (selArea uap)) ∧
    (distRowOf (leftJoinMerged regionAreas merged) sc rel uap (x, some m)).allocatedStock
        = (if rel then
             PyFloat.pyMul
               (if sc then PyFloat.pyDiv (PyFloat.fillna0 m.combinedStock)
                   (.fin ((regionAreas.filter (fun y => y.specie == S)).length : ℚ))
                else PyFloat.fillna0 m.combinedStock)
               (PyFloat.pyDiv (selArea uap x)
                 (PyFloat.pandasSum
                   ((regionAreas.filter (fun y => y.specie == S)).map (selArea uap))))
           else
             (if sc then PyFloat.pyDiv (PyFloat.fillna0 m.combinedStock)
                 (.fin ((regionAreas.filter (fun y => y.specie == S)).length : ℚ))
              else PyFloat.fillna0 m.combinedStock)) := by
  have hgrp : (leftJoinMerged regionAreas merged).filter
        (fun q => q.1.specie == (x, some m).1.specie)
      = (regionAreas.filter (fun y => y.specie == S)).map (fun y => (y, some m)) := by
    rw [show (fun q : RegionAreaRow × Option MergedRow => q.1.specie == (x, some m).1.specie)
          = (fun q : RegionAreaRow × Option MergedRow => q.1.specie == S) by
        funext q; rw [show (x, some m).1.specie = S from hx]]
    exact leftJoin_filter_S _ _ _ _ hm
  simp only [distRowOf, hgrp, List.map_map, List.length_map]
  refine ⟨?_, ?_, ?_⟩ <;> first | rfl | trivial

theorem sum_map_mul_left_q {α : Type} (l : List α) (b : ℚ) (f : α → ℚ) :
    (l.map (fun x => b * f x)).sum = b * (l.map f).sum := by
  induction l with
  | nil => simp
  | cons x xs ih => simp [ih]; ring

/-- C7: with `use_species_count = false` and `use_relative_area = false`,
every region row of a species that has a (unique) merged row with finite
combined stock receives `allocated_stock` exactly equal to that combined
stock — the whole stock is duplicated into every eligible region. -/
theorem C7_full_duplication (regionAreas : List RegionAreaRow)
    (merged : List MergedRow) (uap : Bool) (S : String) (m : MergedRow) (c : ℚ)
    (hm : merged.filter (fun mm => mm.specie == S) = [m])
    (hc : m.combinedStock = .fin c) (r : DistRow)
    (hr : r ∈ distribute_stock regionAreas merged false false uap)
    (hS : r.specie = S) :
    r.allocatedStock = .fin c ∧ r.combinedStock = .fin c := by
  have hrf : r ∈ (distribute_stock regionAreas merged false false uap).filter
      (fun rr => rr.specie == S) := by
    rw [List.mem_filter]
    exact ⟨hr, by rw [hS]; exact beq_self_eq_true _⟩
  rw [distribute_filter_S _ _ _ _ _ _ _ hm, List.mem_map] at hrf
  obtain ⟨x, hx, rfl⟩ := hrf
  have hxS : x.specie = S := beq_iff_eq.mp (List.mem_filter.mp hx).2
  have hf := (distRowOf_S_fields regionAreas merged false false uap S m x hm hxS).2.2
  constructor
  · rw [hf]
    simp [hc, PyFloat.fillna0, PyFloat.isNA]
  · show PyFloat.fillna0 m.combinedStock = .fin c
    simp [hc, PyFloat.fillna0, PyFloat.isNA]

theorem C4_aux (regionAreas : List RegionAreaRow) (merged : List MergedRow)
    (uap sc : Bool) (S : String) (m : MergedRow)
    (hm : merged.filter (fun mm => mm.specie == S) = [m])
    (hfin : ∀ x ∈ regionAreas, x.specie = S → (selArea uap x).isFin = true)
    (hs : ((regionAreas.filter (fun y => y.specie == S)).map
            (fun x => (selArea uap x).toQ)).sum ≠ 0) (b : ℚ)
    (hb : (if sc then PyFloat.pyDiv (PyFloat.fillna0 m.combinedStock)
              (.fin ((regionAreas.filter (fun y => y.specie == S)).length : ℚ))
           else PyFloat.fillna0 m.combinedStock) = .fin b) :
    PyFloat.pandasSum
        (((distribute_stock regionAreas merged sc true uap).filter
            (fun r => r.specie == S)).map (·.allocatedStock)) = .fin b := by
  have hmemS : ∀ x ∈ regionAreas.filter (fun y => y.specie == S), x.specie = S := by
    intro x hx
    exact beq_iff_eq.mp (List.mem_filter.mp hx).2
  have hfinS : ∀ x ∈ regionAreas.filter (fun y => y.specie == S),
      (selArea uap x).isFin = true := fun x hx =>
    hfin x (List.mem_of_mem_filter hx) (hmemS x hx)
  have hsA : PyFloat.pandasSum
      ((regionAreas.filter (fun y => y.specie == S)).map (selArea uap))
      = .fin (((regionAreas.filter (fun y => y.specie == S)).map
          (fun x => (selArea uap x).toQ)).sum) := by
    rw [pandasSum_fin]
    · rw [List.map_map]; rfl
    · intro v hv
      rw [List.mem_map] at hv
      obtain ⟨x, hx, rfl⟩ := hv
      exact hfinS x hx
  rw [distribute_filter_S _ _ _ _ _ _ _ hm, List.map_map]
  rw [List.map_congr_left (g := fun x => PyFloat.fin (b * ((selArea uap x).toQ
        / ((regionAreas.filter (fun y => y.specie == S)).map
            (fun x => (selArea uap x).toQ)).sum))) ?hpt]
  case hpt =>
    intro x hx
    have hxS := hmemS x hx
    obtain ⟨a, ha⟩ : ∃ a, selArea uap x = .fin a := by
      have := hfinS x hx
      cases hsel : selArea uap x <;> simp_all [PyFloat.isFin]
    have h3 := (distRowOf_S_fields regionAreas merged sc true uap S m x hm hxS).2.2
    simp only [Function.comp_apply]
    rw [h3, if_pos rfl, hb, hsA, ha]
    have hdiv : PyFloat.pyDiv (PyFloat.fin a)
        (PyFloat.fin (((regionAreas.filter (fun y => y.specie == S)).map
          (fun x => (selArea uap x).toQ)).sum))
        = PyFloat.fin (a / (((regionAreas.filter (fun y => y.specie == S)).map
          (fun x => (selArea uap x).toQ)).sum)) := by
      simp only [PyFloat.pyDiv]
      rw [if_neg hs]
    rw [hdiv]
    simp only [PyFloat.pyMul, PyFloat.toQ]
  rw [pandasSum_fin]
  · rw [List.map_map]
    have hco : (PyFloat.toQ ∘ fun x => PyFloat.fin (b * ((selArea uap x).toQ
          / ((regionAreas.filter (fun y => y.specie == S)).map
              (fun x => (selArea uap x).toQ)).sum)))
        = fun x => b * ((selArea uap x).toQ
          / ((regionAreas.filter (fun y => y.specie == S)).map
              (fun x => (selArea uap x).toQ)).sum) := rfl
    rw [hco]
    rw [List.map_congr_left (g := fun x => (b
          / ((regionAreas.filter (fun y => y.specie == S)).map
              (fun x => (selArea uap x).toQ)).sum) * (selArea uap x).toQ)
        (fun x _ => by ring)]
    rw [sum_map_mul_left_q, div_mul_cancel₀ b hs]
  · intro v hv
    rw [List.mem_map] at hv
    obtain ⟨x, hx, rfl⟩ := hv
    rfl

/-- C4: with `use_relative_area = true`, for a species with a (unique)
merged row carrying finite combined stock `c`, at least one eligible region,
finite selected areas on all its region rows, and non-zero area sum, the
allocated stock summed over the species' region rows is exactly `c` when
`use_species_count = false`, and exactly `c` divided by the occurrence
count (the number of the species' region rows) when
`use_species_count = true`. -/
theorem C4_area_conservation (regionAreas : List RegionAreaRow)
    (merged : List MergedRow) (uap : Bool) (S : String) (m : MergedRow) (c : ℚ)
    (hm : merged.filter (fun mm => mm.specie == S) = [m])
    (hc : m.combinedStock = .fin c)
    (hfin : ∀ x ∈ regionAreas, x.specie = S → (selArea uap x).isFin = true)
    (hne : regionAreas.filter (fun y => y.specie == S) ≠ [])
    (hs : ((regionAreas.filter (fun y => y.specie == S)).map
            (fun x => (selArea uap x).toQ)).sum ≠ 0) :
    PyFloat.pandasSum
        (((distribute_stock regionAreas merged false true uap).filter
            (fun r => r.specie == S)).map (·.allocatedStock)) = .fin c ∧
    PyFloat.pandasSum
        (((distribute_stock regionAreas merged true true uap).filter
            (fun r => r.specie == S)).map (·.allocatedStock))
      = .fin (c / ((regionAreas.filter (fun y => y.specie == S)).length : ℚ)) := by
  have hk : ((regionAreas.filter (fun y => y.specie == S)).length : ℚ) ≠ 0 := by
    rw [Nat.cast_ne_zero]
    intro h0
    exact hne (List.length_eq_zero.mp h0)
  constructor
  · exact C4_aux regionAreas merged uap false S m hm hfin hs c
      (by simp [hc, PyFloat.fillna0, PyFloat.isNA])
  · exact C4_aux regionAreas merged uap true S m hm hfin hs
      (c / ((regionAreas.filter (fun y => y.specie == S)).length : ℚ))
      (by simp [hc, PyFloat.fillna0, PyFloat.isNA, PyFloat.pyDiv, hk])

/-- Witness for C8 on a concrete four-row stock table and a two-element
supplier subset. -/
theorem C8_witness :
    (∀ r ∈ ([⟨"A", "supplier_top", .fin 5⟩, ⟨"A", "pilot_top", .fin 7⟩,
             ⟨"B", "supplier_top", .fin 3⟩, ⟨"C", "pilot_2ry", .fin 9⟩] : List StockRow),
       (["supplier_top", "pilot_top"] : List String).contains r.supplyType →
         r.quantity.isFin = true) ∧
    PyFloat.pandasSum
        ((combine_suppliers
            [⟨"A", "supplier_top", .fin 5⟩, ⟨"A", "pilot_top", .fin 7⟩,
             ⟨"B", "supplier_top", .fin 3⟩, ⟨"C", "pilot_2ry", .fin 9⟩]
            ["supplier_top", "pilot_top"]).map (·.combinedStock)) =
      .fin ((([⟨"A", "supplier_top", .fin 5⟩, ⟨"A", "pilot_top", .fin 7⟩,
               ⟨"B", "supplier_top", .fin 3⟩, ⟨"C", "pilot_2ry", .fin 9⟩] : List StockRow).filter
              (fun r => (["supplier_top", "pilot_top"] : List String).contains r.supplyType)).map
             (fun r => r.quantity.toQ)).sum :=
  ⟨by decide, C8_stock_conservation _ _ (by decide)⟩

/-- Witness for C7 on a one-region table: the single region row of species
`"s"` receives the full combined stock 8. -/
theorem C7_witness :
    (([⟨"s", .fin 1, .fin 8⟩] : List MergedRow).filter
        (fun mm => mm.specie == "s") = [⟨"s", .fin 1, .fin 8⟩]) ∧
    ((⟨"r1", "st1", "b1", "s", .fin 1, .fin 8, 1, .fin (0 + 1), .fin 8,
        .fin (8 / 1)⟩ : DistRow) ∈
      distribute_stock [⟨"r1", "st1", "b1", "s", .fin 1, .fin 1⟩]
        [⟨"s", .fin 1, .fin 8⟩] false false false) ∧
    ((⟨"r1", "st1", "b1", "s", .fin 1, .fin 8, 1, .fin (0 + 1), .fin 8,
        .fin (8 / 1)⟩ : DistRow).allocatedStock = .fin 8 ∧
     (⟨"r1", "st1", "b1", "s", .fin 1, .fin 8, 1, .fin (0 + 1), .fin 8,
        .fin (8 / 1)⟩ : DistRow).combinedStock = .fin 8) := by
  have hmem : (⟨"r1", "st1", "b1", "s", .fin 1, .fin 8, 1, .fin (0 + 1), .fin 8,
        .fin (8 / 1)⟩ : DistRow) ∈
      distribute_stock [⟨"r1", "st1", "b1", "s", .fin 1, .fin 1⟩]
        [⟨"s", .fin 1, .fin 8⟩] false false false := by
    rw [show distribute_stock [⟨"r1", "st1", "b1", "s", .fin 1, .fin 1⟩]
          [⟨"s", .fin 1, .fin 8⟩] false false false
        = [⟨"r1", "st1", "b1", "s", .fin 1, .fin 8, 1, .fin (0 + 1), .fin 8,
            .fin (8 / 1)⟩] from rfl]
    exact List.mem_cons_self _ _
  exact ⟨rfl, hmem,
    C7_full_duplication [⟨"r1", "st1", "b1", "s", .fin 1, .fin 1⟩]
      [⟨"s", .fin 1, .fin 8⟩] false "s" ⟨"s", .fin 1, .fin 8⟩ 8 rfl rfl _ hmem rfl⟩

/-- Witness for C4 on a two-region table with areas 1 and 3 and combined
stock 8 for the single species. -/
theorem C4_witness :
    (([⟨"s", .fin 1, .fin 8⟩] : List MergedRow).filter
        (fun mm => mm.specie == "s") = [⟨"s", .fin 1, .fin 8⟩]) ∧
    (([⟨"r1", "st1", "b1", "s", .fin 1, .fin 1⟩,
       ⟨"r2", "st2", "b2", "s", .fin 3, .fin 1⟩] : List RegionAreaRow).map
          (fun x => (selArea false x).toQ) ≠ []) ∧
    (PyFloat.pandasSum
        (((distribute_stock
              [⟨"r1", "st1", "b1", "s", .fin 1, .fin 1⟩,
               ⟨"r2", "st2", "b2", "s", .fin 3, .fin 1⟩]
              [⟨"s", .fin 1, .fin 8⟩] false true false).filter
            (fun r => r.specie == "s")).map (·.allocatedStock)) = .fin 8 ∧
     PyFloat.pandasSum
        (((distribute_stock
              [⟨"r1", "st1", "b1", "s", .fin 1, .fin 1⟩,
               ⟨"r2", "st2", "b2", "s", .fin 3, .fin 1⟩]
              [⟨"s", .fin 1, .fin 8⟩] true true false).filter
            (fun r => r.specie == "s")).map (·.allocatedStock))
       = .fin (8 / ((([⟨"r1", "st1", "b1", "s", .fin 1, .fin 1⟩,
               ⟨"r2", "st2", "b2", "s", .fin 3, .fin 1⟩] : List RegionAreaRow).filter
              (fun y => y.specie == "s")).length : ℚ))) :=
  ⟨rfl, by simp,
   C4_area_conservation
     [⟨"r1", "st1", "b1", "s", .fin 1, .fin 1⟩,
      ⟨"r2", "st2", "b2", "s", .fin 3, .fin 1⟩]
     [⟨"s", .fin 1, .fin 8⟩] false "s" ⟨"s", .fin 1, .fin 8⟩ 8 rfl rfl
     (by decide) (by decide)
     (by norm_num [selArea, PyFloat.toQ])⟩

/-! ## Lemmas about the Threshold Summarizer -/

theorem compute_threshold_mem_elim (rows : List DistRow) (n : ℕ) (t : ThreshRow)
    (ht : t ∈ compute_threshold_factor rows n) :
    t.regionkey ∈ ((threshValid rows).map (·.regionkey)).dedup ∧
    ((regionRanked rows t.regionkey).take n).min? = some t.thresholdHa ∧
    t.numSpeciesUsed = n := by
  rw [compute_threshold_factor, List.mem_filterMap] at ht
  obtain ⟨k, hk, hf⟩ := ht
  cases hmin : ((regionRanked rows k).take n).min? with
  | none => rw [hmin] at hf; exact absurd hf (by simp)
  | some m =>
      rw [hmin] at hf
      injection hf with hf
      subst hf
      exact ⟨hk, hmin, rfl⟩

theorem regionRanked_validPos (rows : List DistRow) (k : String) :
    ∀ v ∈ regionRanked rows k, validPos v = true := by
  intro v hv
  rw [regionRanked, List.mem_insertionSort, List.mem_map] at hv
  obtain ⟨r, hr, rfl⟩ := hv
  exact (List.mem_filter.mp (List.mem_of_mem_filter hr)).2

theorem validPos_not_na (v : PyFloat) (h : validPos v = true) : v.isNA = false := by
  cases v <;> simp_all [validPos, PyFloat.isNA]

/-- C1 counterexample: a region with exactly one positive-valid species and
`n_species = 5` is reported with `NumSpeciesUsed = 5`, not
`min(5, 1) = 1`. -/
theorem C1_counterexample :
    (compute_threshold_factor
        [⟨"r1", "st", "b", "sp", .fin 1, .fin 1, 1, .fin 1, .fin 1, .fin 2⟩]
        5).map (·.numSpeciesUsed) = [5] ∧
    specValidSpeciesCount
        [⟨"r1", "st", "b", "sp", .fin 1, .fin 1, 1, .fin 1, .fin 1, .fin 2⟩]
        "r1" = 1 ∧
    ¬ (5 = min 5 (1 : ℕ)) := by decide

/-- C1 amended: `NumSpeciesUsed` is the constant `n_species` on every
output row, regardless of how many positive-valid species the region
actually has. -/
theorem C1_amended (rows : List DistRow) (n : ℕ) (t : ThreshRow)
    (ht : t ∈ compute_threshold_factor rows n) : t.numSpeciesUsed = n :=
  (compute_threshold_mem_elim rows n t ht).2.2

/-- Witness for C1 at the one-row table of the counterexample. -/
theorem C1_witness :
    ((⟨"r1", .fin 2, 5⟩ : ThreshRow) ∈ compute_threshold_factor
        [⟨"r1", "st", "b", "sp", .fin 1, .fin 1, 1, .fin 1, .fin 1, .fin 2⟩] 5) ∧
    (⟨"r1", .fin 2, 5⟩ : ThreshRow).numSpeciesUsed = 5 :=
  ⟨by decide,
   C1_amended [⟨"r1", "st", "b", "sp", .fin 1, .fin 1, 1, .fin 1, .fin 1, .fin 2⟩]
     5 ⟨"r1", .fin 2, 5⟩ (by decide)⟩

/-- C3 counterexample: region `"r1"` has ranked positive-valid values
`[2, 1]`; with `n_species = 1` the threshold is 2, which is *not* strictly
less than the 2nd-ranked value 1 (it is greater). -/
theorem C3_counterexample :
    compute_threshold_factor
        [⟨"r1", "st", "b", "a", .fin 1, .fin 1, 2, .fin 1, .fin 1, .fin 2⟩,
         ⟨"r1", "st", "b", "b", .fin 1, .fin 1, 2, .fin 1, .fin 1, .fin 1⟩] 1
      = [⟨"r1", .fin 2, 1⟩] ∧
    (regionRanked
        [⟨"r1", "st", "b", "a", .fin 1, .fin 1, 2, .fin 1, .fin 1, .fin 2⟩,
         ⟨"r1", "st", "b", "b", .fin 1, .fin 1, 2, .fin 1, .fin 1, .fin 1⟩]
        "r1")[1]? = some (.fin 1) ∧
    PyFloat.pyLt (.fin 2) (.fin 1) = false := by decide

/-- C3 amended: for every output row, the threshold is `<=` (in the float
order) each of the region's top-`n_species` ranked values, and is `>=` the
`(n_species+1)`-th ranked value whenever that value exists (not strictly
less than it, as ranking is descending). -/
theorem C3_amended (rows : List DistRow) (n : ℕ) (t : ThreshRow)
    (ht : t ∈ compute_threshold_factor rows n) :
    (∀ v ∈ (regionRanked rows t.regionkey).take n,
        PyFloat.pyLe t.thresholdHa v = true) ∧
    (∀ v, (regionRanked rows t.regionkey)[n]? = some v →
        PyFloat.pyLe v t.thresholdHa = true) := by
  obtain ⟨-, hmin, -⟩ := compute_threshold_mem_elim rows n t ht
  have htop : t.thresholdHa ∈ (regionRanked rows t.regionkey).take n :=
    List.min?_mem (fun _ _ => min_choice _ _) hmin
  have htmem : t.thresholdHa ∈ regionRanked rows t.regionkey :=
    List.take_subset n _ htop
  have htna : t.thresholdHa.isNA = false :=
    validPos_not_na _ (regionRanked_validPos rows t.regionkey _ htmem)
  have hlb : ∀ v ∈ (regionRanked rows t.regionkey).take n, t.thresholdHa ≤ v :=
    (List.le_min?_iff (fun _ _ _ => le_min_iff) hmin).mp (le_refl _)
  constructor
  · intro v hv
    have hvna : v.isNA = false :=
      validPos_not_na _ (regionRanked_validPos rows t.regionkey _
        (List.take_subset n _ hv))
    exact (PyFloat.le_iff_pyLe _ _ htna hvna).mp (hlb v hv)
  · intro v hv
    have hvmem : v ∈ regionRanked rows t.regionkey := List.getElem?_mem hv
    have hvna : v.isNA = false :=
      validPos_not_na _ (regionRanked_validPos rows t.regionkey _ hvmem)
    obtain ⟨hvlen, hvval⟩ := List.getElem?_eq_some.mp hv
    obtain ⟨i, hi, hival⟩ := List.mem_take_iff_getElem.mp htop
    have hin : i < n := lt_of_lt_of_le hi (min_le_left _ _)
    have hilen : i < (regionRanked rows t.regionkey).length :=
      lt_of_lt_of_le hi (min_le_right _ _)
    have hsorted : List.Sorted (fun a b => b ≤ a) (regionRanked rows t.regionkey) :=
      List.sorted_insertionSort _ _
    have hle := List.pairwise_iff_getElem.mp hsorted i n hilen hvlen hin
    rw [hival, hvval] at hle
    exact (PyFloat.le_iff_pyLe _ _ hvna htna).mp hle

/-- Witness for C3 at the two-row table of the counterexample with
`n_species = 1`. -/
theorem C3_witness :
    ((⟨"r1", .fin 2, 1⟩ : ThreshRow) ∈ compute_threshold_factor
        [⟨"r1", "st", "b", "a", .fin 1, .fin 1, 2, .fin 1, .fin 1, .fin 2⟩,
         ⟨"r1", "st", "b", "b", .fin 1, .fin 1, 2, .fin 1, .fin 1, .fin 1⟩] 1) ∧
    ((∀ v ∈ (regionRanked
        [⟨"r1", "st", "b", "a", .fin 1, .fin 1, 2, .fin 1, .fin 1, .fin 2⟩,
         ⟨"r1", "st", "b", "b", .fin 1, .fin 1, 2, .fin 1, .fin 1, .fin 1⟩]
        (⟨"r1", .fin 2, 1⟩ : ThreshRow).regionkey).take 1,
        PyFloat.pyLe (⟨"r1", .fin 2, 1⟩ : ThreshRow).thresholdHa v = true) ∧
     (∀ v, (regionRanked
        [⟨"r1", "st", "b", "a", .fin 1, .fin 1, 2, .fin 1, .fin 1, .fin 2⟩,
         ⟨"r1", "st", "b", "b", .fin 1, .fin 1, 2, .fin 1, .fin 1, .fin 1⟩]
        (⟨"r1", .fin 2, 1⟩ : ThreshRow).regionkey)[1]? = some v →
        PyFloat.pyLe v (⟨"r1", .fin 2, 1⟩ : ThreshRow).thresholdHa = true)) :=
  ⟨by decide,
   C3_amended
     [⟨"r1", "st", "b", "a", .fin 1, .fin 1, 2, .fin 1, .fin 1, .fin 2⟩,
      ⟨"r1", "st", "b", "b", .fin 1, .fin 1, 2, .fin 1, .fin 1, .fin 1⟩]
     1 ⟨"r1", .fin 2, 1⟩ (by decide)⟩

theorem regionRanked_ne_nil (rows : List DistRow) (k : String)
    (hk : k ∈ ((threshValid rows).map (·.regionkey)).dedup) :
    regionRanked rows k ≠ [] := by
  rw [List.mem_dedup, List.mem_map] at hk
  obtain ⟨r, hr, hrk⟩ := hk
  intro hnil
  have hmem : r.possibleHa ∈ regionRanked rows k := by
    rw [regionRanked, List.mem_insertionSort, List.mem_map]
    exact ⟨r, List.mem_filter.mpr ⟨hr, by rw [hrk]; exact beq_self_eq_true _⟩, rfl⟩
  rw [hnil] at hmem
  exact absurd hmem (List.not_mem_nil _)

theorem threshold_key_mem (rows : List DistRow) (n : ℕ) (hn : 0 < n) (k : String)
    (hk : k ∈ ((threshValid rows).map (·.regionkey)).dedup) :
    ∃ t ∈ compute_threshold_factor rows n, t.regionkey = k := by
  have hne := regionRanked_ne_nil rows k hk
  have htake : (regionRanked rows k).take n ≠ [] := by
    rw [Ne, List.take_eq_nil_iff]
    push_neg
    exact ⟨by omega, hne⟩
  cases hmin : ((regionRanked rows k).take n).min? with
  | none => exact absurd (List.min?_eq_none_iff.mp hmin) htake
  | some m =>
      refine ⟨⟨k, m, n⟩, ?_, rfl⟩
      rw [compute_threshold_factor, List.mem_filterMap]
      exact ⟨k, hk, by rw [hmin]⟩

/-- C2 counterexample: a region whose only allocation row has a
non-positive `Possible_ha_distributed` appears in the allocation table but
is entirely absent from the final merged output (it is not present with
blank threshold columns — there is no row at all, because the threshold
table is the left side of the final left join). -/
theorem C2_counterexample :
    df_map (compute_threshold_factor
        [⟨"r1", "st", "b", "sp", .fin 1, .fin 0, 1, .fin 1, .fin 0, .fin 0⟩] 20)
      (compute_species_count
        [⟨"r1", "st", "b", "sp", .fin 1, .fin 0, 1, .fin 1, .fin 0, .fin 0⟩]) = [] ∧
    ([⟨"r1", "st", "b", "sp", .fin 1, .fin 0, 1, .fin 1, .fin 0, .fin 0⟩] : List DistRow).map
        (·.regionkey) = ["r1"] := by decide

/-- C2 amended: for `n_species >= 1`, the final merged table has a row for
exactly those regions having at least one valid positive allocation row;
regions of the allocation table with no such row are dropped entirely.  On
every emitted row the species count of the left join is present (never
absent), since the threshold regions are a subset of the species-count
regions. -/
theorem C2_amended (rows : List DistRow) (n : ℕ) (hn : 0 < n) (k : String) :
    ((∃ mr ∈ df_map (compute_threshold_factor rows n) (compute_species_count rows),
        mr.regionkey = k) ↔
      ∃ r ∈ rows, r.regionkey = k ∧ validPos r.possibleHa = true) ∧
    (∀ mr ∈ df_map (compute_threshold_factor rows n) (compute_species_count rows),
        mr.speciesCount ≠ none) := by
  constructor
  · constructor
    · rintro ⟨mr, hmr, rfl⟩
      rw [df_map, List.mem_map] at hmr
      obtain ⟨t, ht, rfl⟩ := hmr
      obtain ⟨hkey, -, -⟩ := compute_threshold_mem_elim rows n t ht
      rw [List.mem_dedup, List.mem_map] at hkey
      obtain ⟨r, hr, hrk⟩ := hkey
      exact ⟨r, List.mem_of_mem_filter hr, hrk, (List.mem_filter.mp hr).2⟩
    · rintro ⟨r, hr, hrk, hval⟩
      have hkd : k ∈ ((threshValid rows).map (·.regionkey)).dedup := by
        rw [List.mem_dedup, List.mem_map]
        exact ⟨r, List.mem_filter.mpr ⟨hr, hval⟩, hrk⟩
      obtain ⟨t, ht, htk⟩ := threshold_key_mem rows n hn k hkd
      exact ⟨⟨t.regionkey, t.thresholdHa, t.numSpeciesUsed,
        ((compute_species_count rows).find?
          (fun c => c.regionkey == t.regionkey)).map (·.speciesCount)⟩,
        by rw [df_map, List.mem_map]; exact ⟨t, ht, rfl⟩, htk⟩
  · intro mr hmr
    rw [df_map, List.mem_map] at hmr
    obtain ⟨t, ht, rfl⟩ := hmr
    obtain ⟨hkey, -, -⟩ := compute_threshold_mem_elim rows n t ht
    rw [List.mem_dedup, List.mem_map] at hkey
    obtain ⟨r, hr, hrk⟩ := hkey
    have hall : t.regionkey ∈ (rows.map (·.regionkey)).dedup := by
      rw [List.mem_dedup, List.mem_map]
      exact ⟨r, List.mem_of_mem_filter hr, hrk⟩
    have hcnt : (⟨t.regionkey,
        (((rows.filter (fun rr => rr.regionkey == t.regionkey)).map
          (·.specie)).dedup).length⟩ : CountRow) ∈ compute_species_count rows := by
      rw [compute_species_count]
      exact List.mem_map_of_mem _ hall
    cases hfind : (compute_species_count rows).find?
        (fun c => c.regionkey == t.regionkey) with
    | none =>
        rw [List.find?_eq_none] at hfind
        exact absurd (beq_self_eq_true t.regionkey) (by simpa using hfind _ hcnt)
    | some c => simp [hfind]

/-- Witness for C2 at a one-row table with a valid positive allocation and
`n_species = 1`. -/
theorem C2_witness :
    0 < 1 ∧
    (((∃ mr ∈ df_map
          (compute_threshold_factor
            [⟨"r1", "st", "b", "sp", .fin 1, .fin 1, 1, .fin 1, .fin 1, .fin 2⟩] 1)
          (compute_species_count
            [⟨"r1", "st", "b", "sp", .fin 1, .fin 1, 1, .fin 1, .fin 1, .fin 2⟩]),
        mr.regionkey = "r1") ↔
      ∃ r ∈ ([⟨"r1", "st", "b", "sp", .fin 1, .fin 1, 1, .fin 1, .fin 1, .fin 2⟩] :
          List DistRow), r.regionkey = "r1" ∧ validPos r.possibleHa = true) ∧
     (∀ mr ∈ df_map
          (compute_threshold_factor
            [⟨"r1", "st", "b", "sp", .fin 1, .fin 1, 1, .fin 1, .fin 1, .fin 2⟩] 1)
          (compute_species_count
            [⟨"r1", "st", "b", "sp", .fin 1, .fin 1, 1, .fin 1, .fin 1, .fin 2⟩]),
        mr.speciesCount ≠ none)) :=
  ⟨by decide,
   C2_amended [⟨"r1", "st", "b", "sp", .fin 1, .fin 1, 1, .fin 1, .fin 1, .fin 2⟩]
     1 (by decide) "r1"⟩
